import Mathlib

/-!
Verification of the Godot4Go MMO server repository.

The repository's visible Go source (`server/cmd/main.go` and two variants of
it) is the HTTP bootstrap: configuration loading from environment variables,
filesystem path fallback chains, and certificate path resolution.  Those
functions (`loadConfig`, `coalescePaths`, `resolveLiveCertsPath`) are embedded
here directly from the source.  Filesystem access (`os.Stat`) is modelled by a
boolean oracle `absent : String → Bool` that answers, for a path, whether
`os.Stat` reports non-existence; environment access (`os.Getenv`) is modelled
by a function `getenv : String → String` (Go's Getenv returns the empty string
for an unset variable).

The connection hub (`server.NewHub`, `Hub.Run`, `Hub.Serve`,
`clients.NewWebSocketClient`) is referenced by the bootstrap but its source is
not part of the supplied files; the hub, its clients and its dispatch policy
are modelled from the specification, in the `GameServer` namespace below, as a
state machine processing Register/Unregister/Inbound events.  I/O side effects
of the hub (closing a connection, closing an outbox, dropping a message whose
recipient outbox is full) are recorded in an explicit effect trace.
-/

namespace GameServer

/-! ## Bootstrap: `server/cmd/main.go` -/

/-- From `main.go`: the Docker mount point for the game data directory. -/
def dockerMountedDataDir : String := "/gameserver/data"

/-- From `main.go`: the Docker mount point for the certificates directory. -/
def dockerMountedCertsDir : String := "/gameserver/certs"

/-- From `main.go`: the `config` struct (`Port`, `DataPath`, `CertPath`,
`KeyPath`, `ClientPath`). -/
structure Config where
  Port : Int
  DataPath : String
  CertPath : String
  KeyPath : String
  ClientPath : String
deriving DecidableEq

/-- From `main.go`: `defaultConfig = &config{Port: 8081}`; the remaining
fields take Go's zero value for strings, the empty string. -/
def defaultConfig : Config :=
  { Port := 8081, DataPath := "", CertPath := "", KeyPath := "", ClientPath := "" }

/-- Accumulating decimal-digit evaluation: models the digit loop of Go's
`strconv.ParseInt` in base 10.  Returns `none` as soon as a non-digit
character is met. -/
def digitsVal (acc : Nat) : List Char → Option Nat
  | [] => some acc
  | c :: cs => if c.isDigit then digitsVal (acc * 10 + (c.toNat - '0'.toNat)) cs else none

/-- Model of Go's `strconv.Atoi` (i.e. `ParseInt(s, 10, 0)` with 64-bit
`int`): an optional leading sign followed by at least one decimal digit, with
the result required to fit in a signed 64-bit integer; every other input
yields an error, modelled as `none`. -/
def atoi (s : String) : Option Int :=
  match s.data with
  | [] => none
  | c :: cs =>
    let signAndDigits : Bool × List Char :=
      if c = '-' then (true, cs)
      else if c = '+' then (false, cs)
      else (false, c :: cs)
    match signAndDigits.2 with
    | [] => none
    | _ :: _ =>
      match digitsVal 0 signAndDigits.2 with
      | none => none
      | some n =>
        if signAndDigits.1 then
          if n ≤ 2 ^ 63 then some (-(n : Int)) else none
        else
          if n ≤ 2 ^ 63 - 1 then some (n : Int) else none

/-- From `main.go`: `loadConfig`.  Starts from `defaultConfig`, overwrites the
four path fields with the corresponding environment variables, and overwrites
`Port` only when the `PORT` variable parses as an integer (`strconv.Atoi`
succeeds); on a parse error the function returns early, keeping the default
port. -/
def loadConfig (getenv : String → String) : Config :=
  let cfg := { defaultConfig with
    DataPath := getenv "DATA_PATH"
    CertPath := getenv "CERT_PATH"
    KeyPath := getenv "KEY_PATH"
    ClientPath := getenv "CLIENT_PATH" }
  match atoi (getenv "PORT") with
  | none => cfg
  | some port => { cfg with Port := port }

/-- From `main.go`: `coalescePaths(fallbacks ...string)`, instrumented with
the trace of paths it consulted via `os.Stat`.  The Go loop stats each path in
order; on the first path for which `os.IsNotExist(err)` is false it returns
that path; if every path is reported non-existent it returns `""`.  The first
component is the returned path, the second the list of paths passed to
`os.Stat`, in order. -/
def coalescePathsT (absent : String → Bool) : List String → String × List String
  | [] => ("", [])
  | path :: fallbacks =>
    if absent path then
      let r := coalescePathsT absent fallbacks
      (r.1, path :: r.2)
    else
      (path, [path])

/-- From `main.go`: the value returned by `coalescePaths`. -/
def coalescePaths (absent : String → Bool) (fallbacks : List String) : String :=
  (coalescePathsT absent fallbacks).1

/-- Model of Go's `strings.Split` for a nonempty separator, on character
lists: scan left to right, cut at each non-overlapping occurrence of `sep`.
The `skip` counter consumes the remaining characters of a matched separator,
keeping the recursion structural. -/
def goSplitAux (sep : List Char) : List Char → Nat → List (List Char)
  | [], _ => [[]]
  | _ :: rest, skip + 1 => goSplitAux sep rest skip
  | c :: rest, 0 =>
    if sep.isPrefixOf (c :: rest) then
      [] :: goSplitAux sep rest (sep.length - 1)
    else
      match goSplitAux sep rest 0 with
      | [] => [[c]]
      | chunk :: chunks => (c :: chunk) :: chunks

/-- Model of Go's `strings.Split(s, sep)` for a nonempty `sep`. -/
def goSplit (sep s : List Char) : List (List Char) :=
  goSplitAux sep s 0

/-- From `main.go`: `strings.ReplaceAll(certPath, "\\", "/")` — the pattern
is a single character, so the replacement is a character map. -/
def backslashToSlash (s : List Char) : List Char :=
  s.map (fun c => if c = '\\' then '/' else c)

/-- The separator `"/live/"` used by `resolveLiveCertsPath`. -/
def liveSep : List Char := "/live/".data

/-- Model of Go's `path.Clean` component processing: `stack` holds the output
components in reverse; empty and `.` components are dropped, `..` pops a
non-`..` component, is dropped at the root, and is kept when there is nothing
to pop in a relative path. -/
def cleanComponents (rooted : Bool) : List (List Char) → List (List Char) → List (List Char)
  | stack, [] => stack.reverse
  | stack, comp :: comps =>
    if comp = [] ∨ comp = ['.'] then cleanComponents rooted stack comps
    else if comp = ['.', '.'] then
      match stack with
      | top :: stackRest =>
        if top = ['.', '.'] then cleanComponents rooted (comp :: top :: stackRest) comps
        else cleanComponents rooted stackRest comps
      | [] =>
        if rooted then cleanComponents rooted [] comps
        else cleanComponents rooted [comp] comps
    else cleanComponents rooted (comp :: stack) comps

/-- Model of Go's `path.Clean` on Unix paths (as used by `filepath.Join` on
the server's target platform). -/
def cleanPath (p : List Char) : List Char :=
  match p with
  | [] => ['.']
  | c :: _ =>
    let rooted := c = '/'
    let outComps := cleanComponents rooted [] (goSplit ['/'] p)
    let body := List.intercalate ['/'] outComps
    if rooted then '/' :: body
    else if body = [] then ['.'] else body

/-- Model of Go's `filepath.Join` on Unix: join from the first non-empty
element with `/` and clean the result; all-empty input yields `""`. -/
def joinPath : List (List Char) → List Char
  | [] => []
  | e :: rest => if e = [] then joinPath rest else cleanPath (List.intercalate ['/'] (e :: rest))

/-- From `main.go`: `resolveLiveCertsPath(certPath)`, instrumented with the
trace of paths consulted via `os.Stat` (second component).  Backslashes are
normalized to slashes, the result is split on `"/live/"`; with at least two
components the tail after the last `"/live/"` is retried under the Docker
certs mount through `coalescePaths`, otherwise the path is returned as is,
with no filesystem access. -/
def resolveLiveCertsPath (absent : String → Bool) (certPath : String) : String × List String :=
  let normalizedPath := backslashToSlash certPath.data
  let pathComponents := goSplit liveSep normalizedPath
  if 2 ≤ pathComponents.length then
    let pathTail := pathComponents.getLastD []
    coalescePathsT absent
      [certPath, String.mk (joinPath [dockerMountedCertsDir.data, "live".data, pathTail])]
  else
    (certPath, [])

/-! ## Hub model

The hub core (`server.NewHub`, `Hub.Run`, `Hub.Serve`, the client pumps) is
referenced by `main.go` but its source is not among the supplied files; the
definitions below are modelled from the specification (sections 3–7). -/

/-- Modelled from the spec: the Client lifecycle states
`connecting → active → closing → closed` (spec section 3); the missing code is
the client type of `server/internal/server`. -/
inductive ClientState
  | connecting
  | active
  | closing
  | closed
deriving DecidableEq

/-- Modelled from the spec: a message is an opaque payload plus minimal
routing metadata — an optional explicit target id and a flag with which the
message "explicitly requests self-inclusion" in a broadcast (spec sections 3
and 4.4); the sender id tag travels with the Inbound event.  The missing code
is the wire message type of the hub package. -/
structure Msg where
  payload : String
  target : Option Nat
  includeSelf : Bool
deriving DecidableEq

/-- Modelled from the spec: the hub's view of one connected participant — a
unique id assigned at registration, an optional identity, a bounded outbox of
pending outbound messages, the lifecycle state, and whether its connection has
been closed (spec section 3).  The missing code is the client type of
`server/internal/server`. -/
structure Client where
  id : Nat
  identity : Option String
  outbox : List Msg
  outboxCap : Nat
  state : ClientState
  connClosed : Bool
deriving DecidableEq

/-- Modelled from the spec: the server-side game data loaded once at hub
construction; its contents are opaque to the hub, so it is modelled as an
uninterpreted record. -/
structure GameData where
  entries : List String
deriving DecidableEq

/-- Modelled from the spec: the Hub — the client mapping (owned exclusively
by the coordination loop), the id counter for freshly assigned ids, the data
directory, and the game data loaded at construction (spec section 3).  The
missing code is `server.Hub`. -/
structure Hub where
  clients : List Client
  nextId : Nat
  dataDirectory : String
  gameData : Option GameData
deriving DecidableEq

/-- Observable I/O effects of processing one hub event: closing a client's
connection, closing its outbox (which stops its writer pump), and dropping a
message because the recipient's outbox is full (spec sections 4.3 and 7). -/
inductive Effect
  | connClosed (id : Nat)
  | outboxClosed (id : Nat)
  | msgDropped (id : Nat) (m : Msg)
deriving DecidableEq

/-- Modelled from the spec: the three event kinds consumed by the hub's
coordination loop (spec section 4.3).  A Register event carries the new
client's optional identity and its outbox capacity; the id is assigned by the
hub. -/
inductive Event
  | register (identity : Option String) (outboxCap : Nat)
  | unregister (id : Nat)
  | inbound (senderId : Nat) (m : Msg)
deriving DecidableEq

/-- Modelled from the spec: `NewHub(dataDirectory)` loads server-side game
data from the given directory; if the directory is inaccessible the failure
is logged and the hub proceeds with no loaded data rather than refusing to
start (spec section 6).  Loading is modelled by an oracle
`loadData : String → Option GameData` returning `none` exactly when the
directory is inaccessible; the missing code is `server.NewHub`. -/
def NewHub (loadData : String → Option GameData) (dataDirectory : String) : Hub :=
  { clients := [], nextId := 0, dataDirectory := dataDirectory,
    gameData := loadData dataDirectory }

/-- Modelled from the spec: `Unregister(id)` — if present, remove the client
from the mapping, close its outbox, and close its connection if not already
closed; unregistering an absent id is a no-op, not an error (spec
section 4.3).  The missing code is the hub coordination loop. -/
def unregisterClient (h : Hub) (i : Nat) : Hub × List Effect :=
  match h.clients.find? (fun c => c.id = i) with
  | none => (h, [])
  | some c =>
    ({ h with clients := h.clients.filter (fun c2 => c2.id ≠ i) },
      Effect.outboxClosed i :: (if c.connClosed then [] else [Effect.connClosed i]))

/-- Modelled from the spec: `Register(client)` — insert into the mapping
keyed by a freshly assigned id; if the optional identity conflicts with an
existing live client, evict the old one first (last-connection-wins, spec
section 4.3).  The missing code is the hub coordination loop. -/
def registerClient (h : Hub) (identity : Option String) (cap : Nat) : Hub × List Effect :=
  let evicted : Hub × List Effect :=
    match identity with
    | none => (h, [])
    | some x =>
      match h.clients.find? (fun c => c.identity = some x) with
      | none => (h, [])
      | some old => unregisterClient h old.id
  let newClient : Client :=
    { id := evicted.1.nextId, identity := identity, outbox := [], outboxCap := cap,
      state := ClientState.active, connClosed := false }
  ({ evicted.1 with
      clients := evicted.1.clients ++ [newClient]
      nextId := evicted.1.nextId + 1 },
    evicted.2)

/-- Modelled from the spec: the dispatch policy (spec section 4.4) — if
targeted, route only to that client id if present (silently drop if absent);
if untargeted, broadcast to every other currently-registered client (sender
excluded) unless the message explicitly requests self-inclusion. -/
def recipients (h : Hub) (senderId : Nat) (m : Msg) : List Nat :=
  match m.target with
  | some t => if h.clients.any (fun c => c.id = t) then [t] else []
  | none =>
    if m.includeSelf then h.clients.map Client.id
    else (h.clients.filter (fun c => c.id ≠ senderId)).map Client.id

/-- Modelled from the spec: enqueue one outbound message into one client's
outbox with a bounded non-blocking send — if the outbox is at capacity, drop
the message for that recipient (recorded as an effect) rather than block
(spec sections 4.3 and 5). -/
def deliverTo (m : Msg) (rs : List Nat) (c : Client) : Client × List Effect :=
  if c.id ∈ rs then
    if c.outbox.length < c.outboxCap then
      ({ c with outbox := c.outbox ++ [m] }, [])
    else
      (c, [Effect.msgDropped c.id m])
  else
    (c, [])

/-- Modelled from the spec: `Inbound(senderId, message)` — resolve recipients
via the dispatch policy against the current mapping snapshot and enqueue the
message into each recipient's outbox (spec section 4.3).  The missing code is
the hub coordination loop. -/
def inboundMsg (h : Hub) (senderId : Nat) (m : Msg) : Hub × List Effect :=
  let rs := recipients h senderId m
  let results := h.clients.map (deliverTo m rs)
  ({ h with clients := results.map Prod.fst }, (results.map Prod.snd).flatten)

/-- Modelled from the spec: one step of the hub coordination loop. -/
def processEvent (h : Hub) : Event → Hub × List Effect
  | Event.register idn cap => registerClient h idn cap
  | Event.unregister i => unregisterClient h i
  | Event.inbound s m => inboundMsg h s m

/-- Modelled from the spec: the coordination loop processing a finite event
sequence, accumulating the effect trace. -/
def processEvents (h : Hub) : List Event → Hub × List Effect
  | [] => (h, [])
  | e :: es =>
    let step := processEvent h e
    let rest := processEvents step.1 es
    (rest.1, step.2 ++ rest.2)

/-- Hub well-formedness: client ids are duplicate-free and below the id
counter, every client in the mapping is live (active, connection open), and
identities of identified clients are unique. -/
def WF (h : Hub) : Prop :=
  (h.clients.map Client.id).Nodup ∧
  (∀ c ∈ h.clients, c.id < h.nextId) ∧
  (∀ c ∈ h.clients, c.state = ClientState.active ∧ c.connClosed = false) ∧
  (∀ c ∈ h.clients, ∀ c2 ∈ h.clients,
    c.identity ≠ none → c.identity = c2.identity → c = c2)

instance (h : Hub) : Decidable (WF h) := by
  unfold WF
  infer_instance

/-- Follows the spec's words (sections 4.3 and 8): the still-live
`(id, identity)` pairs after a sequence of events — an id is still live if it
was registered (ids are assigned in registration order starting from `n`) and
not subsequently removed, either by an explicit Unregister event or by
last-connection-wins eviction of a conflicting identity; Inbound events do
not change membership. -/
def stillLive (live : List (Nat × Option String)) (n : Nat) : List Event → List (Nat × Option String)
  | [] => live
  | Event.register idn _ :: es =>
    let live1 :=
      match idn with
      | none => live
      | some x =>
        match live.find? (fun p => p.2 = some x) with
        | none => live
        | some old => live.filter (fun p => p.1 ≠ old.1)
    stillLive (live1 ++ [(n, idn)]) (n + 1) es
  | Event.unregister i :: es => stillLive (live.filter (fun p => p.1 ≠ i)) n es
  | Event.inbound _ _ :: es => stillLive live n es

/-- The membership view of a client used to compare the hub's mapping with
the spec-level still-live computation: its id and its identity. -/
def clientKey (c : Client) : Nat × Option String :=
  (c.id, c.identity)

/-! ## Theorems -/

/-- Every list split by `goSplitAux` is nonempty. -/
theorem goSplitAux_ne_nil (sep : List Char) :
    ∀ (s : List Char) (skip : Nat), goSplitAux sep s skip ≠ [] := by
  intro s
  induction s with
  | nil => intro skip; simp [goSplitAux]
  | cons c rest ih =>
    intro skip
    match skip with
    | skip + 1 => simpa [goSplitAux] using ih skip
    | 0 =>
      rw [goSplitAux]
      split
      · simp
      · split <;> simp

/-- If the separator occurs in the string, the split has at least two
components. -/
theorem two_le_goSplit_length (sep : List Char) (hsep : sep ≠ []) :
    ∀ (pre s post : List Char), s = pre ++ sep ++ post →
      2 ≤ (goSplit sep s).length := by
  intro pre
  induction pre with
  | nil =>
    intro s post hs
    obtain ⟨a, sep2, rfl⟩ := List.exists_cons_of_ne_nil hsep
    subst hs
    simp only [List.nil_append, List.cons_append]
    rw [goSplit, goSplitAux, if_pos]
    · have h1 := goSplitAux_ne_nil (a :: sep2) (sep2 ++ post) (a :: sep2).length.pred
      have h2 := List.length_pos.mpr h1
      simpa using h2
    · exact List.isPrefixOf_iff_prefix.mpr ⟨post, by simp⟩
  | cons p pre2 ih =>
    intro s post hs
    subst hs
    simp only [List.cons_append, List.append_assoc]
    rw [goSplit, goSplitAux]
    split
    · have h1 := goSplitAux_ne_nil sep (pre2 ++ sep ++ post) (sep.length - 1)
      have h2 := List.length_pos.mpr h1
      simpa using h2
    · have h3 := ih (pre2 ++ (sep ++ post)) post (by simp)
      rw [goSplit] at h3
      rcases hm : goSplitAux sep (pre2 ++ (sep ++ post)) 0 with _ | ⟨chunk, chunks⟩
      · exact absurd hm (goSplitAux_ne_nil sep _ 0)
      · rw [hm] at h3
        simpa using h3

/-- If the split has at least two components, the separator occurs in the
string. -/
theorem occurrence_of_two_le_goSplit_length (sep : List Char) :
    ∀ (s : List Char), 2 ≤ (goSplit sep s).length →
      ∃ pre post, s = pre ++ sep ++ post := by
  intro s
  induction s with
  | nil => intro h; rw [goSplit, goSplitAux] at h; simp at h
  | cons c rest ih =>
    intro h
    by_cases hp : sep.isPrefixOf (c :: rest)
    · obtain ⟨t, ht⟩ := List.isPrefixOf_iff_prefix.mp hp
      exact ⟨[], t, by simp [← ht]⟩
    · rw [goSplit, goSplitAux, if_neg hp] at h
      rcases hm : goSplitAux sep rest 0 with _ | ⟨chunk, chunks⟩
      · exact absurd hm (goSplitAux_ne_nil sep _ 0)
      · rw [hm] at h
        simp only [List.length_cons] at h
        have h4 : 2 ≤ (goSplit sep rest).length := by
          rw [goSplit, hm]
          simpa using h
        obtain ⟨pre, post, hr⟩ := ih h4
        exact ⟨c :: pre, post, by simp [hr]⟩

/-- If every path is reported absent, `coalescePathsT` stats all of them in
order and returns the empty string. -/
theorem coalescePathsT_all_absent (absent : String → Bool) :
    ∀ fallbacks : List String, (∀ q ∈ fallbacks, absent q = true) →
      coalescePathsT absent fallbacks = ("", fallbacks) := by
  intro fallbacks
  induction fallbacks with
  | nil => intro _; rfl
  | cons p rest ih =>
    intro hall
    have h1 : absent p = true := hall p (by simp)
    have h2 := ih (fun q hq => hall q (by simp [hq]))
    simp [coalescePathsT, h1, h2]

/-- C8: for every list of candidate paths, `coalescePaths` returns the first
path for which `os.Stat` does not report non-existence, consulting exactly
the paths up to and including that one (so no later path), and returns the
empty string when every path in the list is absent, including for the empty
argument list. -/
theorem coalescePaths_first_present (absent : String → Bool) :
    (∀ fallbacks : List String, (∀ q ∈ fallbacks, absent q = true) →
        coalescePaths absent fallbacks = "") ∧
    (∀ (pre : List String) (p : String) (post : List String),
        (∀ q ∈ pre, absent q = true) → absent p = false →
        coalescePathsT absent (pre ++ p :: post) = (p, pre ++ [p])) := by
  constructor
  · intro fallbacks hall
    rw [coalescePaths, coalescePathsT_all_absent absent fallbacks hall]
  · intro pre
    induction pre with
    | nil =>
      intro p post _ hp
      simp [coalescePathsT, hp]
    | cons q pre2 ih =>
      intro p post hall hp
      have h1 : absent q = true := hall q (by simp)
      have h2 := ih p post (fun r hr => hall r (by simp [hr])) hp
      simp [coalescePathsT, h1, h2]

/-- Witness for C8: with `/missing` absent and `/gameserver/data` present,
the chain `["/missing", "/gameserver/data", "."]` yields `/gameserver/data`
after statting exactly the first two paths. -/
theorem coalescePaths_first_present_witness :
    coalescePathsT (fun s => s == "/missing") ["/missing", "/gameserver/data", "."]
      = ("/gameserver/data", ["/missing", "/gameserver/data"]) := by
  have h := (coalescePaths_first_present (fun s => s == "/missing")).2
    ["/missing"] "/gameserver/data" ["."] (by decide) (by decide)
  simpa using h

/-- C9: when the `PORT` environment variable does not parse as an integer,
`loadConfig` keeps the default port 8081 while still taking the four path
fields from the environment; when `PORT` parses, only then is the port
overwritten with the parsed value. -/
theorem loadConfig_default_port (getenv : String → String) :
    (atoi (getenv "PORT") = none →
      loadConfig getenv =
        { Port := 8081, DataPath := getenv "DATA_PATH", CertPath := getenv "CERT_PATH",
          KeyPath := getenv "KEY_PATH", ClientPath := getenv "CLIENT_PATH" }) ∧
    (∀ p : Int, atoi (getenv "PORT") = some p →
      loadConfig getenv =
        { Port := p, DataPath := getenv "DATA_PATH", CertPath := getenv "CERT_PATH",
          KeyPath := getenv "KEY_PATH", ClientPath := getenv "CLIENT_PATH" }) := by
  constructor
  · intro h
    simp [loadConfig, defaultConfig, h]
  · intro p h
    simp [loadConfig, defaultConfig, h]

/-- Witness for C9: an environment whose `PORT` is `"notanumber"` yields the
default port 8081 with every path field taken from the environment. -/
theorem loadConfig_default_port_witness :
    loadConfig (fun k => if k = "PORT" then "notanumber" else "/srv/x") =
      { Port := 8081, DataPath := "/srv/x", CertPath := "/srv/x",
        KeyPath := "/srv/x", ClientPath := "/srv/x" } := by
  have h := (loadConfig_default_port (fun k => if k = "PORT" then "notanumber" else "/srv/x")).1
    (by decide)
  exact h.trans (by decide)

/-- C10: for every certificate path whose backslash-to-slash normalized form
does not contain the substring `"/live/"`, `resolveLiveCertsPath` returns the
path unchanged and performs no filesystem lookup. -/
theorem resolveLiveCertsPath_identity_without_live (absent : String → Bool) (certPath : String)
    (h : ∀ pre post : List Char, backslashToSlash certPath.data ≠ pre ++ liveSep ++ post) :
    resolveLiveCertsPath absent certPath = (certPath, []) := by
  have hc : ¬ 2 ≤ (goSplit liveSep (backslashToSlash certPath.data)).length := by
    intro h2
    obtain ⟨pre, post, hp⟩ := occurrence_of_two_le_goSplit_length liveSep _ h2
    exact h pre post hp
  simp only [resolveLiveCertsPath]
  rw [if_neg hc]

/-- Witness for C10: `certs/fullchain.pem` contains no `/live/` component and
is returned unchanged with an empty stat trace, even with every path reported
present. -/
theorem resolveLiveCertsPath_identity_without_live_witness :
    resolveLiveCertsPath (fun _ => true) "certs/fullchain.pem" = ("certs/fullchain.pem", []) := by
  apply resolveLiveCertsPath_identity_without_live
  intro pre post hp
  have h2 := two_le_goSplit_length liveSep (by decide) pre _ post hp
  revert h2
  decide

/-- `deliverTo` changes at most the outbox: id, identity, lifecycle state,
connection flag and capacity are untouched. -/
theorem deliverTo_fst_fields (m : Msg) (rs : List Nat) (c : Client) :
    (deliverTo m rs c).1.id = c.id ∧ (deliverTo m rs c).1.identity = c.identity ∧
      (deliverTo m rs c).1.state = c.state ∧ (deliverTo m rs c).1.connClosed = c.connClosed ∧
      (deliverTo m rs c).1.outboxCap = c.outboxCap := by
  rw [deliverTo]
  split
  · split <;> simp
  · simp

/-- `unregisterClient` always leaves the hub with the clients whose id
differs from the unregistered id (a no-op when the id is absent). -/
theorem unregisterClient_fst (h : Hub) (i : Nat) :
    (unregisterClient h i).1 = { h with clients := h.clients.filter (fun c2 => c2.id ≠ i) } := by
  rcases hf : h.clients.find? (fun c => c.id = i) with _ | c
  · have hall : h.clients.filter (fun c2 => c2.id ≠ i) = h.clients := by
      apply List.filter_eq_self.mpr
      intro c2 hc2
      have h2 := List.find?_eq_none.mp hf c2 hc2
      simpa using h2
    rw [unregisterClient, hf, hall]
  · rw [unregisterClient, hf]

/-- Restricting the client mapping preserves well-formedness. -/
theorem WF_filter (h : Hub) (p : Client → Bool) (hwf : WF h) :
    WF { h with clients := h.clients.filter p } := by
  obtain ⟨hnd, hlt, hlive, huniq⟩ := hwf
  refine ⟨?_, ?_, ?_, ?_⟩
  · exact List.Nodup.sublist (List.Sublist.map Client.id (List.filter_sublist _)) hnd
  · intro c hc
    exact hlt c (List.mem_of_mem_filter hc)
  · intro c hc
    exact hlive c (List.mem_of_mem_filter hc)
  · intro c hc c2 hc2 hne hid
    exact huniq c (List.mem_of_mem_filter hc) c2 (List.mem_of_mem_filter hc2) hne hid

/-- Appending a freshly numbered client whose identity clashes with no client
in the mapping preserves well-formedness. -/
theorem WF_append_fresh (h1 : Hub) (idn : Option String) (cap : Nat) (hwf : WF h1)
    (hno : ∀ c ∈ h1.clients, c.identity ≠ idn ∨ idn = none) :
    WF { h1 with
      clients := h1.clients ++
        [{ id := h1.nextId, identity := idn, outbox := [], outboxCap := cap,
           state := ClientState.active, connClosed := false }],
      nextId := h1.nextId + 1 } := by
  obtain ⟨hnd, hlt, hlive, huniq⟩ := hwf
  refine ⟨?_, ?_, ?_, ?_⟩
  · simp only [List.map_append, List.map_cons, List.map_nil, List.nodup_append]
    refine ⟨hnd, by simp, ?_⟩
    intro a ha hb
    simp only [List.mem_cons, List.not_mem_nil, or_false] at hb
    subst hb
    obtain ⟨c, hc, hcid⟩ := List.mem_map.mp ha
    exact absurd hcid (Nat.ne_of_lt (hlt c hc))
  · intro c hc
    rcases List.mem_append.mp hc with hc1 | hc2
    · exact Nat.lt_succ_of_lt (hlt c hc1)
    · simp only [List.mem_singleton] at hc2
      subst hc2
      exact Nat.lt_succ_self _
  · intro c hc
    rcases List.mem_append.mp hc with hc1 | hc2
    · exact hlive c hc1
    · simp only [List.mem_singleton] at hc2
      subst hc2
      exact ⟨rfl, rfl⟩
  · intro c hc c2 hc2 hne hid
    rcases List.mem_append.mp hc with hcl | hcr <;>
      rcases List.mem_append.mp hc2 with hc2l | hc2r
    · exact huniq c hcl c2 hc2l hne hid
    · simp only [List.mem_singleton] at hc2r
      subst hc2r
      rcases hno c hcl with hx | hx
      · exact absurd hid hx
      · rw [hx] at hid
        exact absurd hid hne
    · simp only [List.mem_singleton] at hcr
      subst hcr
      rcases hno c2 hc2l with hx | hx
      · exact absurd hid.symm hx
      · exact absurd hx (by simpa using hne)
    · simp only [List.mem_singleton] at hcr hc2r
      rw [hcr, hc2r]

/-- Unregistering preserves well-formedness. -/
theorem WF_unregisterClient (h : Hub) (i : Nat) (hwf : WF h) :
    WF (unregisterClient h i).1 := by
  rw [unregisterClient_fst]
  exact WF_filter h _ hwf

/-- The id counter is untouched by unregistration. -/
theorem unregisterClient_nextId (h : Hub) (i : Nat) :
    (unregisterClient h i).1.nextId = h.nextId := by
  rw [unregisterClient_fst]

/-- Registration without an identity only appends the fresh client. -/
theorem registerClient_fst_none (h : Hub) (cap : Nat) :
    registerClient h none cap =
      ({ h with
        clients := h.clients ++
          [{ id := h.nextId, identity := none, outbox := [], outboxCap := cap,
             state := ClientState.active, connClosed := false }],
        nextId := h.nextId + 1 }, []) := rfl

/-- Registration with an unclaimed identity only appends the fresh client. -/
theorem registerClient_fst_notfound (h : Hub) (x : String) (cap : Nat)
    (hf : h.clients.find? (fun c => c.identity = some x) = none) :
    registerClient h (some x) cap =
      ({ h with
        clients := h.clients ++
          [{ id := h.nextId, identity := some x, outbox := [], outboxCap := cap,
             state := ClientState.active, connClosed := false }],
        nextId := h.nextId + 1 }, []) := by
  simp only [registerClient, hf]

/-- Registration with a claimed identity first evicts the holder found in the
mapping, then appends the fresh client. -/
theorem registerClient_fst_found (h : Hub) (x : String) (cap : Nat) (old : Client)
    (hf : h.clients.find? (fun c => c.identity = some x) = some old) :
    (registerClient h (some x) cap).1 =
        { h with
          clients := h.clients.filter (fun c2 => c2.id ≠ old.id) ++
            [{ id := h.nextId, identity := some x, outbox := [], outboxCap := cap,
               state := ClientState.active, connClosed := false }],
          nextId := h.nextId + 1 }
      ∧ (registerClient h (some x) cap).2 = (unregisterClient h old.id).2 := by
  constructor
  · simp only [registerClient, hf]
    rw [unregisterClient_fst]
  · simp only [registerClient, hf]

/-- Registration preserves well-formedness, evicting a conflicting identity
before inserting the fresh client. -/
theorem WF_registerClient (h : Hub) (idn : Option String) (cap : Nat) (hwf : WF h) :
    WF (registerClient h idn cap).1 := by
  rcases idn with _ | x
  · rw [registerClient_fst_none]
    exact WF_append_fresh h none cap hwf (fun c _ => Or.inr rfl)
  · rcases hf : h.clients.find? (fun c => c.identity = some x) with _ | old
    · rw [registerClient_fst_notfound h x cap hf]
      refine WF_append_fresh h (some x) cap hwf ?_
      intro c hc
      exact Or.inl (by simpa using List.find?_eq_none.mp hf c hc)
    · rw [(registerClient_fst_found h x cap old hf).1]
      have hold_mem : old ∈ h.clients := List.mem_of_find?_eq_some hf
      have hold_id : old.identity = some x := by simpa using List.find?_some hf
      have hwf1 : WF { h with clients := h.clients.filter (fun c2 => c2.id ≠ old.id) } :=
        WF_filter h _ hwf
      have hno : ∀ c ∈ h.clients.filter (fun c2 => c2.id ≠ old.id),
          c.identity ≠ some x ∨ (some x : Option String) = none := by
        intro c hc
        refine Or.inl ?_
        intro hcx
        have hcmem := List.mem_of_mem_filter hc
        have hcid : c.id ≠ old.id := by simpa using (List.mem_filter.mp hc).2
        have := hwf.2.2.2 c hcmem old hold_mem (by simp [hcx]) (by rw [hcx, hold_id])
        exact hcid (congrArg Client.id this)
      exact WF_append_fresh { h with clients := h.clients.filter (fun c2 => c2.id ≠ old.id) }
        (some x) cap hwf1 hno

/-- Registration increments the id counter by one. -/
theorem registerClient_nextId (h : Hub) (idn : Option String) (cap : Nat) :
    (registerClient h idn cap).1.nextId = h.nextId + 1 := by
  rcases idn with _ | x
  · rw [registerClient_fst_none]
  · rcases hf : h.clients.find? (fun c => c.identity = some x) with _ | old
    · rw [registerClient_fst_notfound h x cap hf]
    · rw [(registerClient_fst_found h x cap old hf).1]

/-- Every id in the mapping after a registration was either already present
or is the freshly assigned one. -/
theorem mem_ids_registerClient (h : Hub) (idn : Option String) (cap : Nat) (j : Nat)
    (hj : j ∈ (registerClient h idn cap).1.clients.map Client.id) :
    j ∈ h.clients.map Client.id ∨ j = h.nextId := by
  have key : ∀ keep : Client → Bool, ∀ idn2 : Option String,
      j ∈ ((h.clients.filter keep ++
        [({ id := h.nextId, identity := idn2, outbox := [], outboxCap := cap,
            state := ClientState.active, connClosed := false } : Client)]).map Client.id) →
      j ∈ h.clients.map Client.id ∨ j = h.nextId := by
    intro keep idn2 hmem
    simp only [List.map_append, List.mem_append, List.map_cons, List.map_nil,
      List.mem_singleton] at hmem
    rcases hmem with hmem | hmem
    · obtain ⟨c, hc, rfl⟩ := List.mem_map.mp hmem
      exact Or.inl (List.mem_map_of_mem Client.id (List.mem_of_mem_filter hc))
    · exact Or.inr hmem
  rcases idn with _ | x
  · rw [registerClient_fst_none] at hj
    refine key (fun _ => true) none ?_
    simpa [List.filter_eq_self] using hj
  · rcases hf : h.clients.find? (fun c => c.identity = some x) with _ | old
    · rw [registerClient_fst_notfound h x cap hf] at hj
      refine key (fun _ => true) (some x) ?_
      simpa [List.filter_eq_self] using hj
    · rw [(registerClient_fst_found h x cap old hf).1] at hj
      exact key (fun c2 => c2.id ≠ old.id) (some x) hj

/-- The clients after an Inbound event are the pointwise delivery results. -/
theorem inboundMsg_clients (h : Hub) (s : Nat) (m : Msg) :
    (inboundMsg h s m).1.clients
      = h.clients.map (fun c => (deliverTo m (recipients h s m) c).1) := by
  simp [inboundMsg]

/-- An Inbound event does not change the ids of the mapping. -/
theorem inboundMsg_ids (h : Hub) (s : Nat) (m : Msg) :
    (inboundMsg h s m).1.clients.map Client.id = h.clients.map Client.id := by
  rw [inboundMsg_clients, List.map_map]
  apply List.map_congr_left
  intro c _
  exact (deliverTo_fst_fields m (recipients h s m) c).1

/-- An Inbound event does not change the id counter. -/
theorem inboundMsg_nextId (h : Hub) (s : Nat) (m : Msg) :
    (inboundMsg h s m).1.nextId = h.nextId := rfl

/-- Message dispatch preserves well-formedness. -/
theorem WF_inboundMsg (h : Hub) (s : Nat) (m : Msg) (hwf : WF h) :
    WF (inboundMsg h s m).1 := by
  obtain ⟨hnd, hlt, hlive, huniq⟩ := hwf
  refine ⟨?_, ?_, ?_, ?_⟩
  · rw [inboundMsg_ids]
    exact hnd
  · intro c hc
    rw [inboundMsg_clients] at hc
    obtain ⟨a, ha, rfl⟩ := List.mem_map.mp hc
    rw [inboundMsg_nextId, (deliverTo_fst_fields m (recipients h s m) a).1]
    exact hlt a ha
  · intro c hc
    rw [inboundMsg_clients] at hc
    obtain ⟨a, ha, rfl⟩ := List.mem_map.mp hc
    have hfields := deliverTo_fst_fields m (recipients h s m) a
    rw [hfields.2.2.1, hfields.2.2.2.1]
    exact hlive a ha
  · intro c hc c2 hc2 hne hid
    rw [inboundMsg_clients] at hc hc2
    obtain ⟨a, ha, rfl⟩ := List.mem_map.mp hc
    obtain ⟨b, hb, rfl⟩ := List.mem_map.mp hc2
    have hfa := deliverTo_fst_fields m (recipients h s m) a
    have hfb := deliverTo_fst_fields m (recipients h s m) b
    rw [hfa.2.1] at hne hid
    rw [hfb.2.1] at hid
    rw [huniq a ha b hb hne hid]

/-- One coordination-loop step preserves well-formedness. -/
theorem WF_processEvent (h : Hub) (e : Event) (hwf : WF h) :
    WF (processEvent h e).1 := by
  cases e with
  | register idn cap => exact WF_registerClient h idn cap hwf
  | unregister i => exact WF_unregisterClient h i hwf
  | inbound s m => exact WF_inboundMsg h s m hwf

/-- The coordination loop preserves well-formedness over any event
sequence. -/
theorem WF_processEvents (h : Hub) (es : List Event) (hwf : WF h) :
    WF (processEvents h es).1 := by
  induction es generalizing h with
  | nil => exact hwf
  | cons e es ih =>
    simp only [processEvents]
    exact ih (processEvent h e).1 (WF_processEvent h e hwf)

/-- A dead id (already used and absent from the mapping) stays below the id
counter and absent after one step. -/
theorem dead_processEvent (h : Hub) (e : Event) (i : Nat)
    (hlt : i < h.nextId) (hni : i ∉ h.clients.map Client.id) :
    i < (processEvent h e).1.nextId ∧ i ∉ (processEvent h e).1.clients.map Client.id := by
  cases e with
  | register idn cap =>
    refine ⟨?_, ?_⟩
    · show i < (registerClient h idn cap).1.nextId
      rw [registerClient_nextId]
      omega
    · intro hmem
      rcases mem_ids_registerClient h idn cap i hmem with hin | hEq
      · exact hni hin
      · omega
  | unregister j =>
    refine ⟨?_, ?_⟩
    · show i < (unregisterClient h j).1.nextId
      rw [unregisterClient_nextId]
      exact hlt
    · intro hmem
      apply hni
      show i ∈ h.clients.map Client.id
      have hmem2 : i ∈ (unregisterClient h j).1.clients.map Client.id := hmem
      rw [unregisterClient_fst] at hmem2
      obtain ⟨c, hc, rfl⟩ := List.mem_map.mp hmem2
      exact List.mem_map_of_mem Client.id (List.mem_of_mem_filter hc)
  | inbound s m =>
    refine ⟨?_, ?_⟩
    · show i < (inboundMsg h s m).1.nextId
      rw [inboundMsg_nextId]
      exact hlt
    · intro hmem
      apply hni
      have hmem2 : i ∈ (inboundMsg h s m).1.clients.map Client.id := hmem
      rw [inboundMsg_ids] at hmem2
      exact hmem2

/-- A dead id stays dead over any event sequence. -/
theorem dead_processEvents (h : Hub) (es : List Event) (i : Nat)
    (hlt : i < h.nextId) (hni : i ∉ h.clients.map Client.id) :
    i < (processEvents h es).1.nextId ∧ i ∉ (processEvents h es).1.clients.map Client.id := by
  induction es generalizing h with
  | nil => exact ⟨hlt, hni⟩
  | cons e es ih =>
    simp only [processEvents]
    have hstep := dead_processEvent h e i hlt hni
    exact ih (processEvent h e).1 hstep.1 hstep.2

/-- Searching the key list for an identity mirrors searching the client
mapping. -/
theorem find?_clientKey (l : List Client) (x : String) :
    (l.map clientKey).find? (fun p => p.2 = some x)
      = Option.map clientKey (l.find? (fun c => c.identity = some x)) := by
  induction l with
  | nil => rfl
  | cons c l ih =>
    by_cases hx : c.identity = some x
    · rw [List.map_cons, List.find?_cons_of_pos _ (by simp [clientKey, hx]),
        List.find?_cons_of_pos _ (by simpa using hx)]
      rfl
    · rw [List.map_cons, List.find?_cons_of_neg _ (by simp [clientKey, hx]),
        List.find?_cons_of_neg _ (by simpa using hx), ih]

/-- Filtering the key list by id mirrors filtering the client mapping. -/
theorem filter_clientKey_id (l : List Client) (j : Nat) :
    (l.filter (fun c => c.id ≠ j)).map clientKey
      = (l.map clientKey).filter (fun p => p.1 ≠ j) := by
  induction l with
  | nil => rfl
  | cons c l ih =>
    rw [List.filter_cons, List.map_cons, List.filter_cons]
    by_cases hj : c.id = j
    · rw [if_neg (by simp [hj]), if_neg (by simp [clientKey, hj])]
      exact ih
    · rw [if_pos (by simp [hj]), if_pos (by simp [clientKey, hj]), List.map_cons, ih]

/-- Message dispatch does not change the membership view of the mapping. -/
theorem clientKey_inboundMsg (h : Hub) (s : Nat) (m : Msg) :
    (inboundMsg h s m).1.clients.map clientKey = h.clients.map clientKey := by
  rw [inboundMsg_clients, List.map_map]
  apply List.map_congr_left
  intro c _
  have hf := deliverTo_fst_fields m (recipients h s m) c
  simp only [Function.comp_apply, clientKey, hf.1, hf.2.1]

/-- A Register step acts on the membership view exactly as the spec-level
still-live computation: an eviction by identity, then the fresh pair. -/
theorem clientKey_registerClient (h : Hub) (idn : Option String) (cap : Nat) :
    (registerClient h idn cap).1.clients.map clientKey
      = (match idn with
         | none => h.clients.map clientKey
         | some x =>
           match (h.clients.map clientKey).find? (fun p => p.2 = some x) with
           | none => h.clients.map clientKey
           | some old => (h.clients.map clientKey).filter (fun p => p.1 ≠ old.1))
        ++ [(h.nextId, idn)] := by
  rcases idn with _ | x
  · show (registerClient h none cap).1.clients.map clientKey
      = h.clients.map clientKey ++ [(h.nextId, none)]
    rw [registerClient_fst_none]
    simp [clientKey]
  · rcases hf : h.clients.find? (fun c => c.identity = some x) with _ | old
    · have hkey : (h.clients.map clientKey).find? (fun p => p.2 = some x) = none := by
        rw [find?_clientKey, hf]
        rfl
      show (registerClient h (some x) cap).1.clients.map clientKey
        = (match (h.clients.map clientKey).find? (fun p => p.2 = some x) with
           | none => h.clients.map clientKey
           | some old => (h.clients.map clientKey).filter (fun p => p.1 ≠ old.1))
          ++ [(h.nextId, some x)]
      rw [hkey, (registerClient_fst_notfound h x cap hf)]
      simp [clientKey]
    · have hkey : (h.clients.map clientKey).find? (fun p => p.2 = some x)
          = some (clientKey old) := by
        rw [find?_clientKey, hf]
        rfl
      show (registerClient h (some x) cap).1.clients.map clientKey
        = (match (h.clients.map clientKey).find? (fun p => p.2 = some x) with
           | none => h.clients.map clientKey
           | some old => (h.clients.map clientKey).filter (fun p => p.1 ≠ old.1))
          ++ [(h.nextId, some x)]
      rw [hkey, (registerClient_fst_found h x cap old hf).1]
      show ((h.clients.filter (fun c2 => c2.id ≠ old.id) ++ _).map clientKey) = _
      rw [List.map_append, filter_clientKey_id]
      simp [clientKey]

/-- The membership view of the mapping after the loop has processed a whole
event sequence equals the spec-level still-live computation. -/
theorem clientKey_processEvents (h : Hub) (es : List Event) :
    (processEvents h es).1.clients.map clientKey
      = stillLive (h.clients.map clientKey) h.nextId es := by
  induction es generalizing h with
  | nil => rfl
  | cons e es ih =>
    simp only [processEvents]
    rw [ih (processEvent h e).1]
    cases e with
    | register idn cap =>
      show stillLive ((registerClient h idn cap).1.clients.map clientKey)
        (registerClient h idn cap).1.nextId es = _
      rw [clientKey_registerClient h idn cap, registerClient_nextId h idn cap]
      rfl
    | unregister i =>
      show stillLive ((unregisterClient h i).1.clients.map clientKey)
        (unregisterClient h i).1.nextId es = _
      rw [unregisterClient_fst]
      show stillLive (((h.clients.filter (fun c2 => c2.id ≠ i)).map clientKey)) h.nextId es = _
      rw [filter_clientKey_id]
      rfl
    | inbound s m =>
      show stillLive ((inboundMsg h s m).1.clients.map clientKey)
        (inboundMsg h s m).1.nextId es = _
      rw [clientKey_inboundMsg h s m, inboundMsg_nextId h s m]
      rfl

/-- C4: unregistering an id absent from the mapping (including an id already
unregistered once) leaves the hub unchanged and produces no effect —
Unregister is an idempotent no-op, not an error. -/
theorem unregister_absent_noop (h : Hub) (i : Nat)
    (habs : ∀ c ∈ h.clients, c.id ≠ i) :
    processEvent h (Event.unregister i) = (h, []) := by
  have hf : h.clients.find? (fun c => c.id = i) = none :=
    List.find?_eq_none.mpr (fun c hc => by simpa using habs c hc)
  show unregisterClient h i = (h, [])
  rw [unregisterClient, hf]

/-- Witness for C4: unregistering id 7, absent from a one-client hub, is a
no-op with an empty effect trace. -/
theorem unregister_absent_noop_witness :
    processEvent (⟨[⟨0, none, [], 4, ClientState.active, false⟩], 1, "", none⟩ : Hub)
        (Event.unregister 7)
      = ((⟨[⟨0, none, [], 4, ClientState.active, false⟩], 1, "", none⟩ : Hub), []) :=
  unregister_absent_noop _ 7 (by decide)

/-- C5: an inbound message explicitly targeted at an id absent from the
mapping delivers nothing to any outbox and surfaces nothing to the sender —
the hub state is unchanged and the effect trace is empty. -/
theorem targeted_absent_silent (h : Hub) (s t : Nat) (m : Msg)
    (ht : m.target = some t) (habs : ∀ c ∈ h.clients, c.id ≠ t) :
    processEvent h (Event.inbound s m) = (h, []) := by
  have hany : h.clients.any (fun c => c.id = t) = false := by
    rw [List.any_eq_false]
    intro c hc
    simpa using habs c hc
  have hr : recipients h s m = [] := by
    simp [recipients, ht, hany]
  have hd : ∀ c : Client, deliverTo m (recipients h s m) c = (c, []) := by
    intro c
    rw [hr, deliverTo, if_neg (by simp)]
  show ({ h with clients := (h.clients.map (deliverTo m (recipients h s m))).map Prod.fst },
      ((h.clients.map (deliverTo m (recipients h s m))).map Prod.snd).flatten) = (h, [])
  rw [List.map_congr_left (fun c _ => hd c)]
  simp [List.map_map, Function.comp_def]

/-- Witness for C5: a message targeted at the absent id 9 leaves a two-client
hub untouched, with an empty effect trace. -/
theorem targeted_absent_silent_witness :
    processEvent (⟨[⟨1, none, [], 4, ClientState.active, false⟩,
          ⟨2, none, [], 4, ClientState.active, false⟩], 3, "", none⟩ : Hub)
        (Event.inbound 1 ⟨"hello", some 9, false⟩)
      = ((⟨[⟨1, none, [], 4, ClientState.active, false⟩,
            ⟨2, none, [], 4, ClientState.active, false⟩], 3, "", none⟩ : Hub), []) :=
  targeted_absent_silent _ 1 9 ⟨"hello", some 9, false⟩ rfl (by decide)

/-- C7: `NewHub` is total — for every directory, also an inaccessible one, it
returns a hub; on an inaccessible directory it simply carries no loaded game
data, keeps the requested directory, and is well-formed, so the coordination
loop can run on it. -/
theorem NewHub_total_without_data (loadData : String → Option GameData) (dir : String)
    (hfail : loadData dir = none) :
    (NewHub loadData dir).gameData = none
      ∧ (NewHub loadData dir).dataDirectory = dir
      ∧ WF (NewHub loadData dir) := by
  refine ⟨hfail, rfl, ?_, ?_, ?_, ?_⟩ <;> simp [NewHub]

/-- Witness for C7: a loader that fails on every directory still yields a
well-formed hub with no game data. -/
theorem NewHub_total_without_data_witness :
    (NewHub (fun _ => none) "/gameserver/data").gameData = none
      ∧ (NewHub (fun _ => none) "/gameserver/data").dataDirectory = "/gameserver/data"
      ∧ WF (NewHub (fun _ => none) "/gameserver/data") :=
  NewHub_total_without_data (fun _ => none) "/gameserver/data" rfl

/-- C1: an untargeted inbound message without self-inclusion from a
registered sender is enqueued into the outbox of every other
currently-registered client (each with free space) and into no other outbox —
in particular the sender's own outbox receives nothing — and no drop effect
occurs. -/
theorem inbound_broadcast_excludes_sender (h : Hub) (s : Nat) (m : Msg)
    (hreg : s ∈ h.clients.map Client.id)
    (ht : m.target = none) (hself : m.includeSelf = false)
    (hspace : ∀ c ∈ h.clients, c.outbox.length < c.outboxCap) :
    (processEvent h (Event.inbound s m)).1.clients
        = h.clients.map (fun c =>
            if c.id = s then c else { c with outbox := c.outbox ++ [m] })
      ∧ (processEvent h (Event.inbound s m)).2 = [] := by
  have hmem : ∀ c ∈ h.clients, (c.id ∈ recipients h s m ↔ c.id ≠ s) := by
    intro c hc
    simp only [recipients, ht, hself, Bool.false_eq_true, if_false, List.mem_map,
      List.mem_filter, decide_eq_true_eq]
    constructor
    · rintro ⟨c2, ⟨_, hne⟩, hEq⟩
      exact hEq ▸ hne
    · intro hne
      exact ⟨c, ⟨hc, hne⟩, rfl⟩
  constructor
  · show (inboundMsg h s m).1.clients = _
    rw [inboundMsg_clients]
    apply List.map_congr_left
    intro c hc
    by_cases hcs : c.id = s
    · have hnin : c.id ∉ recipients h s m := fun hin => ((hmem c hc).mp hin) hcs
      rw [hcs] at hnin
      simp [deliverTo, hcs, hnin]
    · have hin : c.id ∈ recipients h s m := (hmem c hc).mpr hcs
      simp [deliverTo, hin, hspace c hc, hcs]
  · show ((h.clients.map (deliverTo m (recipients h s m))).map Prod.snd).flatten = []
    rw [List.map_map, List.flatten_eq_nil_iff]
    intro x hx
    obtain ⟨c, hc, rfl⟩ := List.mem_map.mp hx
    by_cases hin : c.id ∈ recipients h s m
    · simp [deliverTo, hin, hspace c hc]
    · simp [deliverTo, hin]

/-- Witness for C1: client 1 broadcasts to a three-other-client hub; clients
2 and 3 each receive the message, client 1 does not, and nothing is
dropped. -/
theorem inbound_broadcast_excludes_sender_witness :
    (processEvent (⟨[⟨1, none, [], 4, ClientState.active, false⟩,
          ⟨2, none, [], 4, ClientState.active, false⟩,
          ⟨3, none, [], 4, ClientState.active, false⟩], 4, "", none⟩ : Hub)
        (Event.inbound 1 ⟨"M1", none, false⟩)).1.clients
        = [⟨1, none, [], 4, ClientState.active, false⟩,
           ⟨2, none, [⟨"M1", none, false⟩], 4, ClientState.active, false⟩,
           ⟨3, none, [⟨"M1", none, false⟩], 4, ClientState.active, false⟩]
      ∧ (processEvent (⟨[⟨1, none, [], 4, ClientState.active, false⟩,
            ⟨2, none, [], 4, ClientState.active, false⟩,
            ⟨3, none, [], 4, ClientState.active, false⟩], 4, "", none⟩ : Hub)
          (Event.inbound 1 ⟨"M1", none, false⟩)).2 = [] := by
  have h := inbound_broadcast_excludes_sender
    (⟨[⟨1, none, [], 4, ClientState.active, false⟩,
       ⟨2, none, [], 4, ClientState.active, false⟩,
       ⟨3, none, [], 4, ClientState.active, false⟩], 4, "", none⟩ : Hub)
    1 ⟨"M1", none, false⟩ (by decide) rfl rfl (by decide)
  exact ⟨h.1.trans (by decide), h.2⟩

/-- C6: if a recipient's outbox is at capacity the message is dropped for
that recipient only — a drop effect is recorded for it — while every client
is updated pointwise, so every other recipient with free space still receives
the message. -/
theorem outbox_full_drop_isolated (h : Hub) (s : Nat) (m : Msg) (c : Client)
    (hc : c ∈ h.clients) (hrec : c.id ∈ recipients h s m)
    (hfull : c.outboxCap ≤ c.outbox.length) :
    Effect.msgDropped c.id m ∈ (processEvent h (Event.inbound s m)).2
      ∧ (processEvent h (Event.inbound s m)).1.clients
          = h.clients.map (fun c2 =>
              if c2.id ∈ recipients h s m ∧ c2.outbox.length < c2.outboxCap then
                { c2 with outbox := c2.outbox ++ [m] }
              else c2) := by
  constructor
  · show Effect.msgDropped c.id m
      ∈ ((h.clients.map (deliverTo m (recipients h s m))).map Prod.snd).flatten
    rw [List.map_map, List.mem_flatten]
    refine ⟨(deliverTo m (recipients h s m) c).2, List.mem_map_of_mem _ hc, ?_⟩
    rw [deliverTo, if_pos hrec, if_neg (by omega)]
    simp
  · show (inboundMsg h s m).1.clients = _
    rw [inboundMsg_clients]
    apply List.map_congr_left
    intro c2 hc2
    by_cases hin : c2.id ∈ recipients h s m
    · by_cases hsp : c2.outbox.length < c2.outboxCap
      · simp [deliverTo, hin, hsp]
      · simp [deliverTo, hin, hsp]
    · simp [deliverTo, hin]

/-- Witness for C6: with recipient 1's outbox at capacity 1 and recipient 2
free, a broadcast drops the message for 1 (recorded) while 2 still receives
it. -/
theorem outbox_full_drop_isolated_witness :
    Effect.msgDropped 1 (⟨"hello", none, false⟩ : Msg)
        ∈ (processEvent (⟨[⟨1, none, [⟨"m0", none, false⟩], 1, ClientState.active, false⟩,
              ⟨2, none, [], 4, ClientState.active, false⟩], 3, "", none⟩ : Hub)
            (Event.inbound 0 ⟨"hello", none, false⟩)).2
      ∧ (processEvent (⟨[⟨1, none, [⟨"m0", none, false⟩], 1, ClientState.active, false⟩,
            ⟨2, none, [], 4, ClientState.active, false⟩], 3, "", none⟩ : Hub)
          (Event.inbound 0 ⟨"hello", none, false⟩)).1.clients
          = [⟨1, none, [⟨"m0", none, false⟩], 1, ClientState.active, false⟩,
             ⟨2, none, [⟨"hello", none, false⟩], 4, ClientState.active, false⟩] := by
  have h := outbox_full_drop_isolated
    (⟨[⟨1, none, [⟨"m0", none, false⟩], 1, ClientState.active, false⟩,
       ⟨2, none, [], 4, ClientState.active, false⟩], 3, "", none⟩ : Hub)
    0 ⟨"hello", none, false⟩ ⟨1, none, [⟨"m0", none, false⟩], 1, ClientState.active, false⟩
    (by decide) (by decide) (by decide)
  exact ⟨h.1, h.2.trans (by decide)⟩

/-- C2: after the coordination loop has processed any finite event sequence
from a well-formed hub, the client mapping holds exactly the still-live
`(id, identity)` pairs — those registered and not subsequently removed — with
no duplicate ids; and an id that was already consumed and is gone from the
mapping (a closed client) never reappears. -/
theorem processEvents_exact_still_live (h : Hub) (es : List Event) (hwf : WF h) :
    (processEvents h es).1.clients.map clientKey
        = stillLive (h.clients.map clientKey) h.nextId es
      ∧ ((processEvents h es).1.clients.map Client.id).Nodup
      ∧ (∀ i : Nat, i < h.nextId → i ∉ h.clients.map Client.id →
          i ∉ (processEvents h es).1.clients.map Client.id) := by
  refine ⟨clientKey_processEvents h es, (WF_processEvents h es hwf).1, ?_⟩
  intro i hlt hni
  exact (dead_processEvents h es i hlt hni).2

/-- Witness for C2: from the empty hub, two registrations followed by one
unregistration leave exactly the second client, without duplicates, and the
unregistered id 0 cannot reappear. -/
theorem processEvents_exact_still_live_witness :
    (processEvents (NewHub (fun _ => none) "")
          [Event.register none 4, Event.register none 4,
            Event.unregister 0]).1.clients.map clientKey
        = stillLive ((NewHub (fun _ => none) "").clients.map clientKey)
            (NewHub (fun _ => none) "").nextId
            [Event.register none 4, Event.register none 4, Event.unregister 0]
      ∧ ((processEvents (NewHub (fun _ => none) "")
          [Event.register none 4, Event.register none 4,
            Event.unregister 0]).1.clients.map Client.id).Nodup
      ∧ (∀ i : Nat, i < (NewHub (fun _ => none) "").nextId →
          i ∉ (NewHub (fun _ => none) "").clients.map Client.id →
          i ∉ (processEvents (NewHub (fun _ => none) "")
            [Event.register none 4, Event.register none 4,
              Event.unregister 0]).1.clients.map Client.id) :=
  processEvents_exact_still_live (NewHub (fun _ => none) "") _ (by decide)

/-- C3: registering a client whose identity is already held by a live client
of a well-formed hub evicts the holder: afterwards exactly one client carries
that identity — the freshly registered one — and the evicted client's
connection is closed. -/
theorem register_duplicate_identity_evicts (h : Hub) (x : String) (c0 : Client) (cap : Nat)
    (hwf : WF h) (hc0 : c0 ∈ h.clients) (hid : c0.identity = some x) :
    (registerClient h (some x) cap).1.clients.filter (fun c => c.identity = some x)
        = [{ id := h.nextId, identity := some x, outbox := [], outboxCap := cap,
             state := ClientState.active, connClosed := false }]
      ∧ Effect.connClosed c0.id ∈ (registerClient h (some x) cap).2 := by
  obtain ⟨hnd, hlt, hlive, huniq⟩ := hwf
  rcases hf : h.clients.find? (fun c => c.identity = some x) with _ | old
  · have := List.find?_eq_none.mp hf c0 hc0
    simp [hid] at this
  · have hold_mem : old ∈ h.clients := List.mem_of_find?_eq_some hf
    have hold_id : old.identity = some x := by simpa using List.find?_some hf
    have hoc : old = c0 :=
      huniq old hold_mem c0 hc0 (by simp [hold_id]) (by rw [hold_id, hid])
    have hreg := registerClient_fst_found h x cap old hf
    constructor
    · rw [hreg.1]
      show ((h.clients.filter (fun c2 => c2.id ≠ old.id) ++ _).filter
        (fun c => c.identity = some x)) = _
      rw [List.filter_append]
      have hleft : (h.clients.filter (fun c2 => c2.id ≠ old.id)).filter
          (fun c => c.identity = some x) = [] := by
        rw [List.filter_eq_nil_iff]
        intro c hcmem
        have hcin := List.mem_of_mem_filter hcmem
        have hcid : c.id ≠ old.id := by simpa using (List.mem_filter.mp hcmem).2
        intro hcx
        simp only [decide_eq_true_eq] at hcx
        have := huniq c hcin old hold_mem (by simp [hcx]) (by rw [hcx, hold_id])
        exact hcid (congrArg Client.id this)
      rw [hleft]
      simp
    · rw [hreg.2, hoc]
      rcases hf2 : h.clients.find? (fun c => c.id = c0.id) with _ | c2
      · have := List.find?_eq_none.mp hf2 c0 hc0
        simp at this
      · rw [unregisterClient, hf2]
        have hc2mem := List.mem_of_find?_eq_some hf2
        have hcc := (hlive c2 hc2mem).2
        simp [hcc]

/-- Witness for C3: re-registering identity "A", held by client 0, leaves the
fresh client 1 as the only holder of "A" and closes client 0's connection. -/
theorem register_duplicate_identity_evicts_witness :
    (registerClient (⟨[⟨0, some "A", [], 4, ClientState.active, false⟩], 1, "", none⟩ : Hub)
          (some "A") 4).1.clients.filter (fun c => c.identity = some "A")
        = [⟨1, some "A", [], 4, ClientState.active, false⟩]
      ∧ Effect.connClosed 0
          ∈ (registerClient (⟨[⟨0, some "A", [], 4, ClientState.active, false⟩],
              1, "", none⟩ : Hub) (some "A") 4).2 := by
  have h := register_duplicate_identity_evicts
    (⟨[⟨0, some "A", [], 4, ClientState.active, false⟩], 1, "", none⟩ : Hub)
    "A" ⟨0, some "A", [], 4, ClientState.active, false⟩ 4 (by decide) (by decide) rfl
  exact ⟨h.1.trans (by decide), h.2⟩

end GameServer
